import Mathlib

/-!
Verification of the vault-index core of the `mcp-server-obsidian` server
(`src/obsidian-client.ts`, class `ObsidianClient`, plus the `index.ts`
dispatcher).  The TypeScript code is shallowly embedded: JS strings become
Lean `String`, JS `Map`/`Set` (whose iteration order is insertion order)
become association lists / duplicate-free lists in insertion order, the
filesystem is an explicit association list from absolute path to file data,
and `async` methods become pure state-passing functions returning the new
client state together with an `Except` mirroring `throw`.

String primitives are written as structural recursions over `String.data`
(lists of characters) so that every definition reduces inside the kernel.
-/

set_option autoImplicit false

deriving instance DecidableEq for Except

/-! ## JavaScript string primitives -/

/-- Character-list version of JS `String.prototype.startsWith`. -/
def charListStartsWith : List Char → List Char → Bool
  | _, [] => true
  | [], _ :: _ => false
  | c :: cs, d :: ds => c == d && charListStartsWith cs ds

/-- Models JS `s.startsWith(pre)`. -/
def jsStartsWith (s pre : String) : Bool :=
  charListStartsWith s.data pre.data

/-- Models JS `s.endsWith(suf)`. -/
def jsEndsWith (s suf : String) : Bool :=
  charListStartsWith s.data.reverse suf.data.reverse

/-- Character-list version of JS `String.prototype.includes`. -/
def charListContains : List Char → List Char → Bool
  | [], sub => sub.isEmpty
  | c :: rest, sub => charListStartsWith (c :: rest) sub || charListContains rest sub

/-- Models JS `s.includes(sub)`. -/
def jsIncludes (s sub : String) : Bool :=
  charListContains s.data sub.data

/-- Splits a character list at every occurrence of `sep`, keeping empty
pieces, as JS `s.split(sep)` does for a one-character separator. -/
def splitOnCharAux (sep : Char) (cur : List Char) : List Char → List String
  | [] => [String.mk cur.reverse]
  | c :: cs =>
    if c == sep then String.mk cur.reverse :: splitOnCharAux sep [] cs
    else splitOnCharAux sep (c :: cur) cs

/-- Models JS `s.split(sep)` for a one-character separator (`path.sep` is
`"/"` on posix). -/
def splitOnChar (sep : Char) (s : String) : List String :=
  splitOnCharAux sep [] s.data

/-- The characters matched by the `\s` class that occur in markdown text. -/
def isWsChar (c : Char) : Bool :=
  c == ' ' || c == '\t' || c == '\n' || c == '\r' || c == '\x0b' || c == '\x0c'

/-- Worker for `splitWs`; the `Bool` records whether we are inside a
separator run whose trailing empty piece is still pending. -/
def splitWsAux : List Char → Bool → List Char → List String
  | cur, false, [] => [String.mk cur.reverse]
  | _, true, [] => [""]
  | cur, false, c :: cs =>
    if isWsChar c then String.mk cur.reverse :: splitWsAux [] true cs
    else splitWsAux (c :: cur) false cs
  | _, true, c :: cs =>
    if isWsChar c then splitWsAux [] true cs
    else splitWsAux [c] false cs

/-- Models JS `s.split(/\s+/)`: maximal whitespace runs separate the pieces,
and a leading or trailing run contributes an empty piece, so `"".split`
gives `[""]` and `"a ".split` gives `["a", ""]`. -/
def splitWs (s : String) : List String :=
  splitWsAux [] false s.data

/-- ASCII lower-casing of one character, as JS `toLowerCase` acts on the
characters appearing in vault paths. -/
def charToLower (c : Char) : Char :=
  if 'A' ≤ c ∧ c ≤ 'Z' then Char.ofNat (c.toNat + 32) else c

/-- Models JS `s.toLowerCase()` on ASCII strings. -/
def jsToLower (s : String) : String :=
  String.mk (s.data.map charToLower)

/-- Joins pieces with a separator (inverse of `splitOnChar`). -/
def joinSep (sep : String) : List String → String
  | [] => ""
  | [x] => x
  | x :: y :: xs => x ++ sep ++ joinSep sep (y :: xs)

/-- Drops the last `n` characters of a string. -/
def strDropRight (s : String) (n : Nat) : String :=
  String.mk ((s.data.reverse.drop n).reverse)

/-- Drops the first `n` characters of a string (JS `s.slice(n)`). -/
def strDropLeft (s : String) (n : Nat) : String :=
  String.mk (s.data.drop n)

/-- Membership test on a list of strings (JS `Array.includes` / `Set.has`). -/
def elemStr : List String → String → Bool
  | [], _ => false
  | y :: ys, x => if y = x then true else elemStr ys x

/-- Worker for `dedupKeepFirst` carrying the already-seen elements. -/
def dedupKeepFirstAux (seen : List String) : List String → List String
  | [] => []
  | x :: xs =>
    if elemStr seen x then dedupKeepFirstAux seen xs
    else x :: dedupKeepFirstAux (x :: seen) xs

/-- Deduplication preserving first occurrences: models `[...new Set(l)]`
and iteration over a JS `Set` built by repeated `add`. -/
def dedupKeepFirst (l : List String) : List String :=
  dedupKeepFirstAux [] l

/-! ## Posix path model (`node:path` on posix, as used by the client) -/

/-- Models posix `path.isAbsolute`. -/
def isAbsolutePath (p : String) : Bool :=
  jsStartsWith p "/"

/-- One step of `..`/`.`-resolution over the segment stack of an absolute
path: empty segments and `.` disappear, `..` pops (a `..` at the root is
dropped, as `path.resolve` does for absolute paths). -/
def applySeg (acc : List String) (seg : String) : List String :=
  if seg = "" ∨ seg = "." then acc
  else if seg = ".." then acc.dropLast
  else acc ++ [seg]

/-- Segment list of an absolute path after resolving `.`/`..` segments and
collapsing repeated separators. -/
def resolveSegs (p : String) : List String :=
  (splitOnChar '/' p).foldl applySeg []

/-- Normal form of an absolute posix path: what `path.normalize` (and
`path.resolve`) return on an absolute argument. -/
def posixNormalizeAbs (p : String) : String :=
  "/" ++ joinSep "/" (resolveSegs p)

/-- Models `path.join(a, b)` for an absolute first argument: the
concatenation is normalized. -/
def joinAbs (a b : String) : String :=
  posixNormalizeAbs (a ++ "/" ++ b)

/-- Segment-level worker for `path.relative`: strip the common prefix, then
climb out of what remains of the source before descending into the target. -/
def relativeSegs : List String → List String → List String
  | [], ts => ts
  | f :: fs, [] => (f :: fs).map (fun _ => "..")
  | f :: fs, t :: ts =>
    if f = t then relativeSegs fs ts
    else (f :: fs).map (fun _ => "..") ++ t :: ts

/-- Models posix `path.relative(fromP, toP)` for absolute arguments. -/
def jsRelative (fromP toP : String) : String :=
  joinSep "/" (relativeSegs (resolveSegs fromP) (resolveSegs toP))

/-- Models `os.homedir()`; the concrete value is irrelevant to every claim
(no claim input begins with `~`). -/
def homeDir : String := "/home/user"

/-- Models `ObsidianClient.expandHome`: a leading `~` is replaced by the
home directory (`path.join(os.homedir(), filepath.slice(1))`). -/
def expandHome (filepath : String) : String :=
  if jsStartsWith filepath "~/" || filepath = "~" then
    homeDir ++ strDropLeft filepath 1
  else filepath

/-! ## Data model (`obsidian-client.ts` interfaces) -/

/-- Stat/file data of one on-disk file; `birthtime` is optional because
`stats.birthtime || stats.mtime` falls back when the birth time is absent. -/
structure FileData where
  content : String
  mtime : Nat
  birthtime : Option Nat
deriving DecidableEq

/-- The `VaultNote` interface.  `frontmatter` is the property bag parsed by
gray-matter, modelled as string key/value pairs. -/
structure VaultNote where
  path : String
  name : String
  content : String
  frontmatter : List (String × String)
  links : List String
  backlinks : List String
  tags : List String
  lastModified : Nat
  created : Nat
  wordCount : Nat
deriving DecidableEq

/-- One `SearchResult` row.  The fuzzy score produced by the external Fuse
engine is abstracted to a `Nat`; the search-path logic verified here never
inspects it. -/
structure SearchResult where
  note : VaultNote
  score : Nat
deriving DecidableEq

/-- The `LinkAnalysis` result of `analyzeLinkNetwork` (the `clusters` field
is the constant `[]` in the source and is omitted). -/
structure LinkAnalysis where
  totalLinks : Nat
  brokenLinks : List String
  orphanedNotes : List String
  centralNotes : List (String × Nat)
deriving DecidableEq

/-- The errors thrown by `ObsidianClient`.  `accessDeniedHidden` and
`accessDeniedOutsideVault` are the two `Access denied - ...` messages of
`validatePath`; `notADirectory` and `statFailure` are the two failure causes
inside `initializeVault`'s `try` block, and `cannotAccessVault` is the
`Cannot access vault directory` error thrown by its `catch`. -/
inductive VaultError where
  | accessDeniedHidden
  | accessDeniedOutsideVault
  | notADirectory
  | statFailure
  | cannotAccessVault
  | notFound (relativePath : String)
  | createFailed
deriving DecidableEq

/-- Either of the two access-denied errors of the Path Guard. -/
def VaultError.isAccessDenied : VaultError → Bool
  | .accessDeniedHidden => true
  | .accessDeniedOutsideVault => true
  | _ => false

/-- Outcome of `fs.stat` on the vault root: a directory, some other file
kind, or a rejection (missing / unreadable path). -/
inductive StatResult where
  | dir
  | file
  | statError
deriving DecidableEq

/-- The mutable state of one `ObsidianClient` plus the filesystem it acts
on.  `files` maps absolute paths to file data; `noteCache` is the JS `Map`
in insertion order; the two graphs map note paths to link sets (insertion-
ordered duplicate-free lists).  The Fuse search index is a derived,
disposable structure whose rebuild has no observable state here. -/
structure ObsidianClient where
  vaultPath : String
  allowedDirectories : List String
  files : List (String × FileData)
  noteCache : List VaultNote
  linkGraph : List (String × List String)
  backlinksGraph : List (String × List String)
deriving DecidableEq

/-! ## Association-list and set helpers (JS `Map` / `Set` semantics) -/

/-- First binding of `k`, as JS `Map.get`. -/
def alookup {α : Type} : List (String × α) → String → Option α
  | [], _ => none
  | e :: es, k => if e.1 = k then some e.2 else alookup es k

/-- JS `Map.set`: replace in place, or append a new binding. -/
def assocSet {α : Type} : List (String × α) → String → α → List (String × α)
  | [], k, v => [(k, v)]
  | e :: es, k, v => if e.1 = k then (k, v) :: es else e :: assocSet es k v

/-- JS `Set.add` on an insertion-ordered duplicate-free list. -/
def addToSet (s : List String) (x : String) : List String :=
  if elemStr s x then s else s ++ [x]

/-- First cached note with the given path, as `noteCache.get(path)`. -/
def cacheGet : List VaultNote → String → Option VaultNote
  | [], _ => none
  | n :: ns, p => if n.path = p then some n else cacheGet ns p

/-- `noteCache.set(path, note)` (replace in place or append). -/
def cacheSet : List VaultNote → VaultNote → List VaultNote
  | [], note => [note]
  | n :: ns, note => if n.path = note.path then note :: ns else n :: cacheSet ns note

/-- `noteCache.has(path)`. -/
def cacheHas (cache : List VaultNote) (p : String) : Bool :=
  (cacheGet cache p).isSome

/-! ## Note Parser (`parseMarkdown`, `extractTags`, gray-matter) -/

/-- Attempts the wiki-link pattern at the start of the input: the body of
`/\[\[([^\]|]+)(?:\|[^\]]*)?\]\]/`.  Returns the captured target and the
rest of the input after the match. -/
def wikiAt : List Char → Option (String × List Char)
  | '[' :: '[' :: rest =>
    let captured := rest.takeWhile (fun c => !(c == ']') && !(c == '|'))
    let rest1 := rest.dropWhile (fun c => !(c == ']') && !(c == '|'))
    if captured.isEmpty then none
    else
      let rest2 := match rest1 with
        | '|' :: r => r.dropWhile (fun c => !(c == ']'))
        | _ => rest1
      match rest2 with
      | ']' :: ']' :: rest3 => some (String.mk captured, rest3)
      | _ => none
  | _ => none

/-- Left-to-right scan with the wiki-link regex: on a match, continue after
it; otherwise advance one character, like `RegExp.exec` with the `g` flag. -/
def scanWiki : Nat → List Char → List String
  | 0, _ => []
  | _ + 1, [] => []
  | fuel + 1, c :: rest =>
    match wikiAt (c :: rest) with
    | some (link, rest2) => link :: scanWiki fuel rest2
    | none => scanWiki fuel rest

/-- Attempts the markdown-link pattern `/\[([^\]]+)\]\(([^)]+)\)/` at the
start of the input, returning the captured target. -/
def mdLinkAt : List Char → Option (String × List Char)
  | '[' :: rest =>
    let label := rest.takeWhile (fun c => !(c == ']'))
    let rest1 := rest.dropWhile (fun c => !(c == ']'))
    if label.isEmpty then none
    else
      match rest1 with
      | ']' :: '(' :: rest2 =>
        let target := rest2.takeWhile (fun c => !(c == ')'))
        let rest3 := rest2.dropWhile (fun c => !(c == ')'))
        if target.isEmpty then none
        else
          match rest3 with
          | ')' :: rest4 => some (String.mk target, rest4)
          | _ => none
      | _ => none
  | _ => none

/-- Scan with the markdown-link regex; targets that look like web URLs
(`match[2].startsWith('http')`) are skipped. -/
def scanMdLinks : Nat → List Char → List String
  | 0, _ => []
  | _ + 1, [] => []
  | fuel + 1, c :: rest =>
    match mdLinkAt (c :: rest) with
    | some (target, rest2) =>
      if jsStartsWith target "http" then scanMdLinks fuel rest2
      else target :: scanMdLinks fuel rest2
    | none => scanMdLinks fuel rest

/-- Attempts the embed pattern `/!\[\[([^\]]+)\]\]/` at the start of the
input. -/
def embedAt : List Char → Option (String × List Char)
  | '!' :: '[' :: '[' :: rest =>
    let captured := rest.takeWhile (fun c => !(c == ']'))
    let rest1 := rest.dropWhile (fun c => !(c == ']'))
    if captured.isEmpty then none
    else
      match rest1 with
      | ']' :: ']' :: rest2 => some (String.mk captured, rest2)
      | _ => none
  | _ => none

/-- Scan with the embed regex. -/
def scanEmbeds : Nat → List Char → List String
  | 0, _ => []
  | _ + 1, [] => []
  | fuel + 1, c :: rest =>
    match embedAt (c :: rest) with
    | some (target, rest2) => target :: scanEmbeds fuel rest2
    | none => scanEmbeds fuel rest

/-- Models `ObsidianClient.parseMarkdown`: the three regex scans run over
the whole content in order (wiki links, then markdown links, then embeds)
and the concatenation is deduplicated preserving first-seen order
(`[...new Set(links)]`). -/
def parseMarkdown (content : String) : List String :=
  let cs := content.data
  dedupKeepFirst
    (scanWiki cs.length cs ++ scanMdLinks cs.length cs ++ scanEmbeds cs.length cs)

/-- A character of the inline-tag class: letters, digits, underscore,
slash or dash. -/
def isTagChar (c : Char) : Bool :=
  ('a' ≤ c && c ≤ 'z') || ('A' ≤ c && c ≤ 'Z') || ('0' ≤ c && c ≤ '9') ||
    c == '_' || c == '/' || c == '-'

/-- Scan with the inline-tag regex: `#` followed by one or more tag-class
characters. -/
def scanInlineTags : Nat → List Char → List String
  | 0, _ => []
  | _ + 1, [] => []
  | fuel + 1, '#' :: rest =>
    let captured := rest.takeWhile isTagChar
    if captured.isEmpty then scanInlineTags fuel rest
    else String.mk captured :: scanInlineTags fuel (rest.dropWhile isTagChar)
  | fuel + 1, _ :: rest => scanInlineTags fuel rest

/-- Models `ObsidianClient.extractTags`: the front-matter `tags` property
(a single scalar at this model's fidelity; a falsy value is skipped) is
united with the inline tags, keeping `Set` insertion order. -/
def extractTags (content : String) (frontmatter : List (String × String)) :
    List String :=
  let fmTags := match alookup frontmatter "tags" with
    | some v => if v = "" then [] else [v]
    | none => []
  dedupKeepFirst (fmTags ++ scanInlineTags content.data.length content.data)

/-- Splits the line list at the first `---` delimiter line, returning the
lines before it and after it. -/
def splitAtDelim : List String → Option (List String × List String)
  | [] => none
  | l :: ls =>
    if l = "---" then some ([], ls)
    else (splitAtDelim ls).map (fun p => (l :: p.1, p.2))

/-- Parses one `key: value` front-matter line into a string pair. -/
def parseFmLine (l : String) : Option (String × String) :=
  let key := l.data.takeWhile (fun c => !(c == ':'))
  match l.data.dropWhile (fun c => !(c == ':')) with
  | ':' :: rest => some (String.mk key, String.mk (rest.dropWhile (fun c => c == ' ')))
  | _ => none

/-- Models gray-matter `matter(content)` at the fidelity the claims need:
a leading `---` line opens a metadata block closed by the next `---` line,
whose lines are `key: value` string pairs; content without a leading
delimiter (every claim input) yields an empty map and the full content as
body. -/
def matterParse (content : String) : List (String × String) × String :=
  match splitOnChar '\n' content with
  | first :: rest =>
    if first = "---" then
      match splitAtDelim rest with
      | some (fmLines, bodyLines) =>
        (fmLines.filterMap parseFmLine, joinSep "\n" bodyLines)
      | none => ([], content)
    else ([], content)
  | [] => ([], content)

/-- Models gray-matter `matter.stringify(content, frontmatter)`: an empty
property bag adds no block, otherwise the `---`-delimited block precedes
the content. -/
def matterStringify (content : String) (frontmatter : List (String × String)) :
    String :=
  if frontmatter.isEmpty then content
  else
    "---\n" ++ joinSep "" (frontmatter.map (fun e => e.1 ++ ": " ++ e.2 ++ "\n")) ++
      "---\n" ++ content

/-- Models `path.basename(relativePath, '.md')`: the last path segment,
with a `.md` suffix stripped when it is a proper suffix. -/
def lastSeg : List String → String
  | [] => ""
  | [x] => x
  | _ :: y :: xs => lastSeg (y :: xs)

/-- Display name of a note: `path.basename(relativePath, '.md')`. -/
def basenameMd (relativePath : String) : String :=
  let b := lastSeg (splitOnChar '/' relativePath)
  if jsEndsWith b ".md" && decide (3 < b.data.length) then strDropRight b 3 else b

/-! ## Path Guard (`validatePath`) and constructor -/

/-- The absolute path the request resolves to:
`path.isAbsolute(p) ? path.resolve(p) : path.resolve(this.vaultPath, p)`
(the vault path is absolute in every modelled configuration, so
`path.resolve` is normalization). -/
def resolveRequested (vaultPath expandedPath : String) : String :=
  if isAbsolutePath expandedPath then posixNormalizeAbs expandedPath
  else posixNormalizeAbs (vaultPath ++ "/" ++ expandedPath)

/-- Models `ObsidianClient.validatePath`.  First the hidden-segment policy:
any segment of the *requested* path starting with `.` is rejected.  Then
the home marker is expanded, the path resolved, and the result must have a
member of `allowedDirectories` as a string prefix of its normalized
lower-cased form (`normalizePath` is `path.normalize` composed with
`toLowerCase`; on the already-normalized output of `path.resolve` it is
just the lower-casing). -/
def validatePath (c : ObsidianClient) (requestedPath : String) :
    Except VaultError String :=
  if (splitOnChar '/' requestedPath).any (fun part => jsStartsWith part ".") then
    .error .accessDeniedHidden
  else
    let absolute := resolveRequested c.vaultPath (expandHome requestedPath)
    if c.allowedDirectories.any (fun dir => jsStartsWith (jsToLower absolute) dir) then
      .ok absolute
    else
      .error .accessDeniedOutsideVault

/-- Models the `ObsidianClient` constructor over a given filesystem: the
vault path is home-expanded, and `allowedDirectories` is the singleton
`[normalizePath(path.resolve(vaultPath))]`. -/
def mkObsidianClient (vaultPath : String) (files : List (String × FileData)) :
    ObsidianClient :=
  let vp := expandHome vaultPath
  { vaultPath := vp
    allowedDirectories := [jsToLower (posixNormalizeAbs vp)]
    files := files
    noteCache := []
    linkGraph := []
    backlinksGraph := [] }

/-! ## Link Resolver and graph construction -/

/-- First cached note matching the exact tier of `resolveLink`
(`note.name === cleanLink || note.path === cleanLink`), in cache iteration
order. -/
def findExact (cleanLink : String) : List VaultNote → Option VaultNote
  | [] => none
  | n :: ns =>
    if n.name = cleanLink ∨ n.path = cleanLink then some n
    else findExact cleanLink ns

/-- First cached note matching the partial tier
(`note.name.toLowerCase().includes(cleanLink.toLowerCase())`). -/
def findPartial (cleanLink : String) : List VaultNote → Option VaultNote
  | [] => none
  | n :: ns =>
    if jsIncludes (jsToLower n.name) (jsToLower cleanLink) then some n
    else findPartial cleanLink ns

/-- The reference with one trailing `.md` removed
(`link.replace(/\.md$/, '')`). -/
def stripMdSuffix (link : String) : String :=
  if jsEndsWith link ".md" then strDropRight link 3 else link

/-- Models `ObsidianClient.resolveLink`: exact tier first, then the partial
tier, else `null`. -/
def resolveLink (cache : List VaultNote) (link : String) : Option VaultNote :=
  let cleanLink := stripMdSuffix link
  match findExact cleanLink cache with
  | some n => some n
  | none => findPartial cleanLink cache

/-- Graph with an empty link set for every cached note, in cache iteration
order (the initialization loop of `buildLinkGraphs`). -/
def initGraph (cache : List VaultNote) : List (String × List String) :=
  cache.map (fun n => (n.path, ([] : List String)))

/-- Adds `v` to the set bound to `k`, when `k` is bound; a no-op otherwise
(the backlink insertion in the source is guarded by a presence check, and
the forward key always exists). -/
def graphAdd (g : List (String × List String)) (k v : String) :
    List (String × List String) :=
  g.map (fun e => if e.1 = k then (e.1, addToSet e.2 v) else e)

/-- The (source, target) pairs produced by the double loop of
`buildLinkGraphs`, in iteration order: for each cached note, for each of
its raw links, the resolved target if resolution succeeds. -/
def resolvedEdges (cache : List VaultNote) : List (String × String) :=
  (cache.map (fun note =>
    note.links.filterMap (fun link =>
      (resolveLink cache link).map (fun t => (note.path, t.path))))).flatten

/-- The final loop of `buildLinkGraphs`: when the note's path is bound in
the backlinks graph, its `backlinks` array is replaced by that set
(`note.backlinks = Array.from(backlinks)`). -/
def backfillNote (back : List (String × List String)) (n : VaultNote) : VaultNote :=
  match alookup back n.path with
  | some b => { n with backlinks := b }
  | none => n

/-- Models `ObsidianClient.buildLinkGraphs`: both graphs are cleared and
re-initialized with empty sets, each resolved edge is added to the forward
set of its source and the backlink set of its target (the two folds are the
source's single interleaved loop, split over the two disjoint maps), and
each cached note's `backlinks` array is replaced by its backlink set. -/
def buildLinkGraphs (c : ObsidianClient) : ObsidianClient :=
  let edges := resolvedEdges c.noteCache
  let fwd := edges.foldl (fun g e => graphAdd g e.1 e.2) (initGraph c.noteCache)
  let back := edges.foldl (fun g e => graphAdd g e.2 e.1) (initGraph c.noteCache)
  { c with
    noteCache := c.noteCache.map (backfillNote back)
    linkGraph := fwd
    backlinksGraph := back }

/-! ## Vault Index operations -/

/-- Models `ObsidianClient.updateCacheEntry`: stat and read the file at
`path.join(vaultPath, relativePath)`, parse front-matter, links and tags,
and replace the cache entry wholesale.  A failing read (missing file) is
caught and logged, leaving the cache unchanged. -/
def updateCacheEntry (c : ObsidianClient) (relativePath : String) :
    ObsidianClient :=
  match alookup c.files (joinAbs c.vaultPath relativePath) with
  | none => c
  | some fd =>
    let fmBody := matterParse fd.content
    let bodyContent := fmBody.2
    let note : VaultNote :=
      { path := relativePath
        name := basenameMd relativePath
        content := bodyContent
        frontmatter := fmBody.1
        links := parseMarkdown bodyContent
        backlinks := []
        tags := extractTags bodyContent fmBody.1
        lastModified := fd.mtime
        created := fd.birthtime.getD fd.mtime
        wordCount := (splitWs bodyContent).length }
    { c with noteCache := cacheSet c.noteCache note }

/-- Models `ObsidianClient.removeFromCache`: the note's cache entry and
both of its graph entries are deleted, and the path is removed from every
remaining forward and backlink set.  The `backlinks` arrays stored on the
remaining cached notes are not touched. -/
def removeFromCache (c : ObsidianClient) (relativePath : String) :
    ObsidianClient :=
  { c with
    noteCache := c.noteCache.filter (fun n => !(n.path == relativePath))
    linkGraph := (c.linkGraph.filter (fun e => !(e.1 == relativePath))).map
      (fun e => (e.1, e.2.filter (fun x => !(x == relativePath))))
    backlinksGraph := (c.backlinksGraph.filter (fun e => !(e.1 == relativePath))).map
      (fun e => (e.1, e.2.filter (fun x => !(x == relativePath)))) }

/-- Writes a file (`fs.writeFile`), overwriting any existing entry. -/
def filesWrite (files : List (String × FileData)) (absPath : String)
    (fd : FileData) : List (String × FileData) :=
  assocSet files absPath fd

/-- Removes a file (`fs.remove`). -/
def filesRemove (files : List (String × FileData)) (absPath : String) :
    List (String × FileData) :=
  files.filter (fun e => !(e.1 == absPath))

/-- `fs.pathExists`. -/
def filesHas (files : List (String × FileData)) (absPath : String) : Bool :=
  (alookup files absPath).isSome

/-- Models `ObsidianClient.createNote`.  After the Path Guard check the
source tries to ensure a `.md` extension, but appends it to the local
`notePath` variable, which is never read again — the file is written at the
unmodified `validPath`.  Front matter is serialized only when non-empty.
The cache entry is upserted from the written file, both graphs and the
search index are rebuilt, and the note is read back from the cache (a
missing entry would throw `Failed to create note`).  The returned state
reflects every mutation performed before a throw. -/
def createNote (c : ObsidianClient) (notePath content : String)
    (frontmatter : List (String × String)) (mtime : Nat) :
    ObsidianClient × Except VaultError VaultNote :=
  match validatePath c notePath with
  | .error e => (c, .error e)
  | .ok validPath =>
    let _deadNotePath := if jsEndsWith validPath ".md" then notePath
      else notePath ++ ".md"
    let fileContent := if frontmatter.length > 0 then
        matterStringify content frontmatter
      else content
    let c1 := { c with
      files := filesWrite c.files validPath ⟨fileContent, mtime, none⟩ }
    let relativePath := jsRelative c1.vaultPath validPath
    let c2 := buildLinkGraphs (updateCacheEntry c1 relativePath)
    match cacheGet c2.noteCache relativePath with
    | some note => (c2, .ok note)
    | none => (c2, .error .createFailed)

/-- Models `ObsidianClient.updateNote`: requires an existing cache entry
(`Note not found` otherwise); unspecified fields default to the cached
values; the file is rewritten through `matter.stringify`, the entry
re-upserted and graphs and search index rebuilt. -/
def updateNote (c : ObsidianClient) (notePath : String)
    (content : Option String) (frontmatter : Option (List (String × String)))
    (mtime : Nat) : ObsidianClient × Except VaultError VaultNote :=
  match validatePath c notePath with
  | .error e => (c, .error e)
  | .ok validPath =>
    let relativePath := jsRelative c.vaultPath validPath
    match cacheGet c.noteCache relativePath with
    | none => (c, .error (.notFound relativePath))
    | some existingNote =>
      let newContent := content.getD existingNote.content
      let newFrontmatter := frontmatter.getD existingNote.frontmatter
      let fileContent := matterStringify newContent newFrontmatter
      let c1 := { c with
        files := filesWrite c.files validPath ⟨fileContent, mtime, none⟩ }
      let c2 := buildLinkGraphs (updateCacheEntry c1 relativePath)
      match cacheGet c2.noteCache relativePath with
      | some note => (c2, .ok note)
      | none => (c2, .error (.notFound relativePath))

/-- Models `ObsidianClient.deleteNote`: requires an existing cache entry,
removes the file, purges the cache and graphs through `removeFromCache`,
and rebuilds only the search index (no graph rebuild). -/
def deleteNote (c : ObsidianClient) (notePath : String) :
    ObsidianClient × Except VaultError Unit :=
  match validatePath c notePath with
  | .error e => (c, .error e)
  | .ok validPath =>
    let relativePath := jsRelative c.vaultPath validPath
    if cacheHas c.noteCache relativePath then
      let c1 := { c with files := filesRemove c.files validPath }
      (removeFromCache c1 relativePath, .ok ())
    else
      (c, .error (.notFound relativePath))

/-- Models `ObsidianClient.readNote`: returns the cached entry; on a cache
miss with the file present on disk, lazily upserts before returning. -/
def readNote (c : ObsidianClient) (notePath : String) :
    ObsidianClient × Except VaultError VaultNote :=
  match validatePath c notePath with
  | .error e => (c, .error e)
  | .ok validPath =>
    let relativePath := jsRelative c.vaultPath validPath
    match cacheGet c.noteCache relativePath with
    | some note => (c, .ok note)
    | none =>
      if filesHas c.files validPath then
        let c1 := updateCacheEntry c relativePath
        match cacheGet c1.noteCache relativePath with
        | some note => (c1, .ok note)
        | none => (c1, .error (.notFound relativePath))
      else
        (c, .error (.notFound relativePath))

/-! ## Filesystem watcher handler -/

/-- A chokidar event kind. -/
inductive FileEvent where
  | add
  | change
  | delete
deriving DecidableEq

/-- Models `ObsidianClient.handleFileChange`: non-`.md` paths are ignored;
a delete removes the entry from cache and graphs, an add or change upserts
the entry; then only the search index is rebuilt — `buildLinkGraphs` is not
invoked.  Failures inside the handler are caught and logged, never
propagated, which the total state-passing form captures. -/
def handleFileChange (c : ObsidianClient) (filePath : String)
    (event : FileEvent) : ObsidianClient :=
  if !(jsEndsWith filePath ".md") then c
  else
    let relativePath := jsRelative c.vaultPath filePath
    match event with
    | .delete => removeFromCache c relativePath
    | .add => updateCacheEntry c relativePath
    | .change => updateCacheEntry c relativePath

/-! ## Initialization -/

/-- The body of the `try` block in `initializeVault`: `fs.stat` may reject,
and a non-directory result raises the `Vault path is not a directory`
error. -/
def statCheck (st : StatResult) : Except VaultError Unit :=
  match st with
  | .statError => .error .statFailure
  | .file => .error .notADirectory
  | .dir => .ok ()

/-- The relative paths the recursive scan of `findMarkdownFiles` yields
over the modelled filesystem: files under the vault whose relative path has
no hidden segment and ends in `.md`, in file-list (directory-listing)
order. -/
def scanCandidates (vaultPath : String) (files : List (String × FileData)) :
    List String :=
  files.filterMap (fun e =>
    let rel := jsRelative vaultPath e.1
    if (splitOnChar '/' rel).any (fun part => jsStartsWith part ".") then none
    else if jsEndsWith rel ".md" then some rel
    else none)

/-- `scanVault`: upsert a cache entry per discovered markdown file
(individual failures are logged and skipped, which `updateCacheEntry`'s
total form captures). -/
def scanVault (c : ObsidianClient) : ObsidianClient :=
  (scanCandidates c.vaultPath c.files).foldl updateCacheEntry c

/-- Models `ObsidianClient.initializeVault`.  The stat check and the
not-a-directory throw both live inside one `try` whose `catch` throws the
single `Cannot access vault directory` error, so every failure of the body
surfaces as `cannotAccessVault`.  On success the vault is scanned and the
graphs (and search index) are built once. -/
def initializeVault (st : StatResult) (c : ObsidianClient) :
    ObsidianClient × Except VaultError Unit :=
  match statCheck st with
  | .error _ => (c, .error .cannotAccessVault)
  | .ok _ => (buildLinkGraphs (scanVault c), .ok ())

/-! ## Query operations -/

/-- Models `ObsidianClient.getBacklinks`: the cached note's `backlinks`
array, or `[]` for an unknown path. -/
def getBacklinks (c : ObsidianClient) (notePath : String) : List String :=
  match cacheGet c.noteCache notePath with
  | some note => note.backlinks
  | none => []

/-- Models `ObsidianClient.getForwardLinks`: the forward-graph set, or `[]`
for an unknown path. -/
def getForwardLinks (c : ObsidianClient) (notePath : String) : List String :=
  match alookup c.linkGraph notePath with
  | some linkSet => linkSet
  | none => []

/-- Stable insertion of `x` into a list sorted descending by `key`:
`x` goes before the first strictly smaller element, so elements with equal
keys keep their original relative order. -/
def insertDesc {α : Type} (key : α → Nat) (x : α) : List α → List α
  | [] => [x]
  | y :: ys => if key y < key x then x :: y :: ys else y :: insertDesc key x ys

/-- Stable descending sort by `key`, modelling the stable `Array.sort` with
a `b - a` comparator. -/
def sortDesc {α : Type} (key : α → Nat) : List α → List α
  | [] => []
  | x :: xs => insertDesc key x (sortDesc key xs)

/-- Models `ObsidianClient.analyzeLinkNetwork`: total edge count, broken
`"<path>: <link>"` pairs, orphans (no backlinks and no forward links), and
the ten most connected notes by forward+back degree. -/
def analyzeLinkNetwork (c : ObsidianClient) : LinkAnalysis :=
  let setSize := fun (g : List (String × List String)) (p : String) =>
    match alookup g p with
    | some s => s.length
    | none => 0
  { totalLinks := c.linkGraph.foldl (fun sum e => sum + e.2.length) 0
    brokenLinks := (c.noteCache.map (fun note =>
      note.links.filterMap (fun link =>
        if (resolveLink c.noteCache link).isNone then
          some (note.path ++ ": " ++ link)
        else none))).flatten
    orphanedNotes := c.noteCache.filterMap (fun note =>
      if setSize c.backlinksGraph note.path = 0 ∧
          setSize c.linkGraph note.path = 0 then some note.path
      else none)
    centralNotes := (sortDesc (fun e => e.2) (c.noteCache.map (fun note =>
      (note.path, setSize c.backlinksGraph note.path +
        setSize c.linkGraph note.path)))).take 10 }

/-- Models `Math.round(totalWords / noteCount)` on non-negative values:
`Math.round` is floor of the value plus one half.  (With zero notes the JS
division yields `NaN`; the modelled value is then `0`.) -/
def jsRoundDiv (totalWords noteCount : Nat) : Nat :=
  (2 * totalWords + noteCount) / (2 * noteCount)

/-- The statistics record returned by `getVaultStatistics`. -/
structure VaultStatistics where
  totalNotes : Nat
  totalWords : Nat
  averageWordsPerNote : Nat
  totalTags : Nat
  mostUsedTags : List (String × Nat)
  recentNotes : List (String × Nat)
deriving DecidableEq

/-- Tag-frequency table over the cache (`getMostUsedTags` before sorting),
in first-seen order. -/
def tagCounts (cache : List VaultNote) : List (String × Nat) :=
  cache.foldl (fun acc note =>
    note.tags.foldl (fun acc tag =>
      match alookup acc tag with
      | some k => assocSet acc tag (k + 1)
      | none => assocSet acc tag 1) acc) []

/-- Models `ObsidianClient.getVaultStatistics`. -/
def getVaultStatistics (c : ObsidianClient) : VaultStatistics :=
  let notes := c.noteCache
  let totalWords := notes.foldl (fun sum note => sum + note.wordCount) 0
  { totalNotes := notes.length
    totalWords := totalWords
    averageWordsPerNote := jsRoundDiv totalWords notes.length
    totalTags := (dedupKeepFirst (notes.map (fun n => n.tags)).flatten).length
    mostUsedTags := (sortDesc (fun e => e.2) (tagCounts notes)).take 5
    recentNotes := (sortDesc (fun e => e.2) (notes.map (fun n =>
      (n.path, n.lastModified)))).take 10 }

/-- The tag-filter stage of `searchNotes`: applied only when a non-empty
tag list is supplied (`options?.tags && options.tags.length > 0`), keeping
results whose note carries at least one requested tag. -/
def searchTagFilter (tags : Option (List String)) (results : List SearchResult) :
    List SearchResult :=
  match tags with
  | some ts =>
    if 0 < ts.length then
      results.filter (fun result => ts.any (fun tag => elemStr result.note.tags tag))
    else results
  | none => results

/-- Models `ObsidianClient.searchNotes` downstream of the external Fuse
engine: `searchResults` stands for the engine's ranked output, to which the
source applies the tag filter and then the truncation guarded by
`if (options?.limit)` — so an absent limit *and* a limit of `0` (falsy in
JS) both skip the `slice`. -/
def searchNotesPost (searchResults : List SearchResult)
    (tags : Option (List String)) (limit : Option Nat) : List SearchResult :=
  let results := searchTagFilter tags searchResults
  match limit with
  | some n => if n ≠ 0 then results.take n else results
  | none => results

/-! ## Operation sequences and the symmetry invariant -/

/-- One programmatic CRUD mutation of the vault. -/
inductive VaultOp where
  | create (path content : String) (frontmatter : List (String × String)) (mtime : Nat)
  | update (path : String) (content : Option String)
      (frontmatter : Option (List (String × String))) (mtime : Nat)
  | delete (path : String)

/-- The state reached by one operation (a thrown error leaves the client in
the state accumulated up to the throw, which the state-first return values
carry). -/
def applyOp (c : ObsidianClient) : VaultOp → ObsidianClient
  | .create path content frontmatter mtime =>
    (createNote c path content frontmatter mtime).1
  | .update path content frontmatter mtime =>
    (updateNote c path content frontmatter mtime).1
  | .delete path => (deleteNote c path).1

/-- The symmetry invariant of the link graph: for any two notes in the
vault, `b` is a forward link of `a` exactly when `a` is a backlink of `b`. -/
def graphSymmetric (c : ObsidianClient) : Prop :=
  ∀ a b : String, cacheHas c.noteCache a = true → cacheHas c.noteCache b = true →
    (b ∈ getForwardLinks c a ↔ a ∈ getBacklinks c b)

/-! ## Concrete vault fixtures used by the claim instances -/

/-- A client over an empty vault rooted at `/vault`. -/
def guardDemoClient : ObsidianClient := mkObsidianClient "/vault" []

/-- The state and result of `createNote("note", "hello world")` on the
empty vault. -/
def c3Created : ObsidianClient × Except VaultError VaultNote :=
  createNote guardDemoClient "note" "hello world" [] 5

/-- Three-note vault: `a.md` references `c`, `b.md` references `a`,
`c.md` has no references. -/
def purgeDemoFiles : List (String × FileData) :=
  [("/vault/a.md", ⟨"[[c]]", 1, some 1⟩),
   ("/vault/b.md", ⟨"[[a]]", 2, some 2⟩),
   ("/vault/c.md", ⟨"x", 3, some 3⟩)]

/-- The three-note vault after initialization. -/
def purgeDemoInit : ObsidianClient :=
  (initializeVault .dir (mkObsidianClient "/vault" purgeDemoFiles)).1

/-- The three-note vault after `deleteNote("a.md")`. -/
def purgeDemoDeleted : ObsidianClient :=
  (deleteNote purgeDemoInit "a.md").1

/-- Two-note vault with no references, used for the watcher scenario. -/
def watchDemoFiles : List (String × FileData) :=
  [("/vault/a.md", ⟨"x", 1, some 1⟩),
   ("/vault/b.md", ⟨"y", 2, some 2⟩)]

/-- The two-note vault after initialization. -/
def watchDemoInit : ObsidianClient :=
  (initializeVault .dir (mkObsidianClient "/vault" watchDemoFiles)).1

/-- The watcher scenario mid-state: `b.md` has been rewritten on disk to
reference `a`, but no event has been processed yet. -/
def watchDemoChanged : ObsidianClient :=
  { watchDemoInit with
    files := filesWrite watchDemoInit.files "/vault/b.md" ⟨"[[a]]", 3, some 2⟩ }

/-- The watcher scenario after the `change` event for `b.md` is handled. -/
def watchDemoAfter : ObsidianClient :=
  handleFileChange watchDemoChanged "/vault/b.md" .change

/-- A cached note with the given path, modification time and word count and
no tags or links, used by the statistics witness. -/
def statsNote (path : String) (mtime wordCount : Nat) : VaultNote :=
  { path := path
    name := basenameMd path
    content := ""
    frontmatter := []
    links := []
    backlinks := []
    tags := []
    lastModified := mtime
    created := mtime
    wordCount := wordCount }

/-- A client whose cache holds exactly three notes with word counts 8, 8
and 6. -/
def statsDemoClient : ObsidianClient :=
  { guardDemoClient with
    noteCache :=
      [statsNote "n1.md" 1 8, statsNote "n2.md" 2 8, statsNote "n3.md" 3 6] }

/-- Two concrete ranked results, standing for an output of the external
search engine. -/
def searchDemoResults : List SearchResult :=
  [{ note := statsNote "n1.md" 1 8, score := 0 },
   { note := statsNote "n2.md" 2 8, score := 1 }]

/-- Membership of `x` in the set bound to `k` (false when `k` is unbound);
proof-level view of the two graph maps. -/
def gmem (g : List (String × List String)) (k x : String) : Bool :=
  match alookup g k with
  | some s => elemStr s x
  | none => false

/-- Whether `k` is bound in an association list. -/
def hasKey {α : Type} (g : List (String × α)) (k : String) : Bool :=
  (alookup g k).isSome

/-! ## Helper lemmas -/

theorem elemStr_eq_true_iff (l : List String) (x : String) :
    elemStr l x = true ↔ x ∈ l := by
  induction l with
  | nil => simp [elemStr]
  | cons y ys ih =>
    by_cases h : y = x
    · subst h; simp [elemStr]
    · rw [List.mem_cons]
      simp only [elemStr, if_neg h]
      rw [ih]
      constructor
      · exact Or.inr
      · rintro (h2 | h2)
        · exact absurd h2.symm h
        · exact h2

theorem mem_addToSet (s : List String) (x y : String) :
    elemStr (addToSet s x) y = true ↔ y ∈ s ∨ y = x := by
  unfold addToSet
  split
  next h =>
    rw [elemStr_eq_true_iff]
    constructor
    · exact Or.inl
    · rintro (h2 | rfl)
      · exact h2
      · exact (elemStr_eq_true_iff s y).mp h
  next h =>
    rw [elemStr_eq_true_iff]
    simp

theorem graphAdd_cons (e : String × List String) (es : List (String × List String))
    (k v : String) :
    graphAdd (e :: es) k v =
      (if e.1 = k then (e.1, addToSet e.2 v) else e) :: graphAdd es k v := rfl

theorem alookup_graphAdd (g : List (String × List String)) (k v k' : String) :
    alookup (graphAdd g k v) k' =
      if k' = k then (alookup g k).map (fun s => addToSet s v)
      else alookup g k' := by
  induction g with
  | nil => simp [graphAdd, alookup]
  | cons e es ih =>
    rw [graphAdd_cons]
    by_cases h1 : e.1 = k
    · rw [if_pos h1]
      by_cases h2 : k' = k
      · subst h2
        simp [alookup, h1, ih]
      · have hne : ¬ e.1 = k' := fun hc => h2 (hc.symm.trans h1)
        simp [alookup, hne, ih, h2]
    · rw [if_neg h1]
      by_cases h2 : e.1 = k'
      · have h3 : ¬ k' = k := fun hc => h1 (h2.trans hc)
        simp [alookup, h2, h3]
      · simp [alookup, h2, ih, h1]

theorem hasKey_graphAdd (g : List (String × List String)) (k v k' : String) :
    hasKey (graphAdd g k v) k' = hasKey g k' := by
  unfold hasKey
  rw [alookup_graphAdd]
  by_cases h : k' = k
  · subst h; cases halookup : alookup g k' <;> simp [halookup]
  · rw [if_neg h]

theorem gmem_graphAdd (g : List (String × List String)) (k v k' x : String) :
    gmem (graphAdd g k v) k' x = true ↔
      gmem g k' x = true ∨ (k' = k ∧ x = v ∧ hasKey g k = true) := by
  unfold gmem
  rw [alookup_graphAdd]
  by_cases h : k' = k
  · subst h
    rw [if_pos rfl]
    cases halookup : alookup g k' with
    | none => simp [halookup, hasKey]
    | some s =>
      simp only [Option.map_some']
      show elemStr (addToSet s v) x = true ↔
        elemStr s x = true ∨ (True ∧ x = v ∧ hasKey g k' = true)
      rw [mem_addToSet]
      simp only [hasKey, halookup, Option.isSome_some, and_true, true_and,
        elemStr_eq_true_iff]
  · rw [if_neg h]
    simp [h]

theorem hasKey_foldl_graphAdd_fst (edges : List (String × String))
    (g : List (String × List String)) (k : String) :
    hasKey (edges.foldl (fun g e => graphAdd g e.1 e.2) g) k = hasKey g k := by
  induction edges generalizing g with
  | nil => rfl
  | cons e es ih => rw [List.foldl_cons, ih, hasKey_graphAdd]

theorem hasKey_foldl_graphAdd_snd (edges : List (String × String))
    (g : List (String × List String)) (k : String) :
    hasKey (edges.foldl (fun g e => graphAdd g e.2 e.1) g) k = hasKey g k := by
  induction edges generalizing g with
  | nil => rfl
  | cons e es ih => rw [List.foldl_cons, ih, hasKey_graphAdd]

theorem gmem_foldl_fwd (edges : List (String × String))
    (g : List (String × List String)) (k x : String) :
    gmem (edges.foldl (fun g e => graphAdd g e.1 e.2) g) k x = true ↔
      gmem g k x = true ∨ ((k, x) ∈ edges ∧ hasKey g k = true) := by
  induction edges generalizing g with
  | nil => simp
  | cons e es ih =>
    rw [List.foldl_cons, ih, gmem_graphAdd, hasKey_graphAdd]
    constructor
    · rintro ((h | ⟨rfl, rfl, hk⟩) | ⟨hmem, hk⟩)
      · exact Or.inl h
      · exact Or.inr ⟨List.mem_cons_self _ _, hk⟩
      · exact Or.inr ⟨List.mem_cons_of_mem _ hmem, hk⟩
    · rintro (h | ⟨hmem, hk⟩)
      · exact Or.inl (Or.inl h)
      · rcases List.mem_cons.mp hmem with h2 | h2
        · obtain ⟨h21, h22⟩ := Prod.ext_iff.mp h2
          exact Or.inl (Or.inr ⟨h21, h22, h21 ▸ hk⟩)
        · exact Or.inr ⟨h2, hk⟩

theorem gmem_foldl_back (edges : List (String × String))
    (g : List (String × List String)) (k x : String) :
    gmem (edges.foldl (fun g e => graphAdd g e.2 e.1) g) k x = true ↔
      gmem g k x = true ∨ ((x, k) ∈ edges ∧ hasKey g k = true) := by
  induction edges generalizing g with
  | nil => simp
  | cons e es ih =>
    rw [List.foldl_cons, ih, gmem_graphAdd, hasKey_graphAdd]
    constructor
    · rintro ((h | ⟨rfl, rfl, hk⟩) | ⟨hmem, hk⟩)
      · exact Or.inl h
      · exact Or.inr ⟨List.mem_cons_self _ _, hk⟩
      · exact Or.inr ⟨List.mem_cons_of_mem _ hmem, hk⟩
    · rintro (h | ⟨hmem, hk⟩)
      · exact Or.inl (Or.inl h)
      · rcases List.mem_cons.mp hmem with h2 | h2
        · obtain ⟨h21, h22⟩ := Prod.ext_iff.mp h2
          exact Or.inl (Or.inr ⟨h22, h21, h22 ▸ hk⟩)
        · exact Or.inr ⟨h2, hk⟩

theorem alookup_initGraph_cons (n : VaultNote) (ns : List VaultNote) (k : String) :
    alookup (initGraph (n :: ns)) k =
      if n.path = k then some [] else alookup (initGraph ns) k := rfl

theorem gmem_initGraph (cache : List VaultNote) (k x : String) :
    gmem (initGraph cache) k x = false := by
  induction cache with
  | nil => rfl
  | cons n ns ih =>
    unfold gmem
    rw [alookup_initGraph_cons]
    by_cases h : n.path = k
    · rw [if_pos h]; rfl
    · rw [if_neg h]; exact ih

theorem hasKey_initGraph (cache : List VaultNote) (k : String) :
    hasKey (initGraph cache) k = true ↔ ∃ n ∈ cache, n.path = k := by
  induction cache with
  | nil => simp [hasKey, initGraph, alookup]
  | cons n ns ih =>
    unfold hasKey
    rw [alookup_initGraph_cons]
    by_cases h : n.path = k
    · rw [if_pos h]
      simp only [Option.isSome_some, true_iff]
      exact ⟨n, List.mem_cons_self n ns, h⟩
    · rw [if_neg h]
      rw [show (alookup (initGraph ns) k).isSome = hasKey (initGraph ns) k from rfl, ih]
      constructor
      · rintro ⟨m, hm, hp⟩
        exact ⟨m, List.mem_cons_of_mem _ hm, hp⟩
      · rintro ⟨m, hm, hp⟩
        rcases List.mem_cons.mp hm with rfl | h2
        · exact absurd hp h
        · exact ⟨m, h2, hp⟩

theorem cacheGet_mem (cache : List VaultNote) (p : String) (n : VaultNote)
    (h : cacheGet cache p = some n) : n ∈ cache ∧ n.path = p := by
  induction cache with
  | nil => exact absurd h (by simp [cacheGet])
  | cons m ms ih =>
    unfold cacheGet at h
    by_cases h2 : m.path = p
    · rw [if_pos h2] at h
      obtain rfl := Option.some_injective _ h
      exact ⟨List.mem_cons_self _ _, h2⟩
    · rw [if_neg h2] at h
      obtain ⟨hm, hp⟩ := ih h
      exact ⟨List.mem_cons_of_mem _ hm, hp⟩

theorem backfillNote_path (back : List (String × List String)) (n : VaultNote) :
    (backfillNote back n).path = n.path := by
  unfold backfillNote
  cases alookup back n.path <;> rfl

theorem backfillNote_backlinks (back : List (String × List String))
    (n : VaultNote) (s : List String) (h : alookup back n.path = some s) :
    (backfillNote back n).backlinks = s := by
  unfold backfillNote
  rw [h]

theorem cacheGet_map_backfill (back : List (String × List String))
    (cache : List VaultNote) (p : String) :
    cacheGet (cache.map (backfillNote back)) p =
      (cacheGet cache p).map (backfillNote back) := by
  induction cache with
  | nil => rfl
  | cons n ns ih =>
    rw [List.map_cons]
    show (if (backfillNote back n).path = p then some (backfillNote back n)
      else cacheGet (ns.map (backfillNote back)) p) = _
    rw [backfillNote_path]
    by_cases h : n.path = p
    · rw [if_pos h]
      show _ = (if n.path = p then some n else cacheGet ns p).map _
      rw [if_pos h]
      rfl
    · rw [if_neg h]
      show _ = (if n.path = p then some n else cacheGet ns p).map _
      rw [if_neg h]
      exact ih

theorem gmem_of_alookup (g : List (String × List String)) (k : String)
    (s : List String) (x : String) (h : alookup g k = some s) :
    gmem g k x = elemStr s x := by
  unfold gmem
  rw [h]

theorem getBacklinks_of_cacheGet (c : ObsidianClient) (b : String)
    (n : VaultNote) (h : cacheGet c.noteCache b = some n) :
    getBacklinks c b = n.backlinks := by
  unfold getBacklinks
  rw [h]

theorem mem_getForwardLinks_iff (c : ObsidianClient) (a b : String) :
    b ∈ getForwardLinks c a ↔ gmem c.linkGraph a b = true := by
  unfold getForwardLinks gmem
  cases alookup c.linkGraph a with
  | none =>
    show b ∈ ([] : List String) ↔ false = true
    simp
  | some s =>
    show b ∈ s ↔ elemStr s b = true
    exact (elemStr_eq_true_iff s b).symm

theorem buildLinkGraphs_linkGraph (c : ObsidianClient) :
    (buildLinkGraphs c).linkGraph =
      (resolvedEdges c.noteCache).foldl (fun g e => graphAdd g e.1 e.2)
        (initGraph c.noteCache) := rfl

theorem buildLinkGraphs_backGraph (c : ObsidianClient) :
    (buildLinkGraphs c).backlinksGraph =
      (resolvedEdges c.noteCache).foldl (fun g e => graphAdd g e.2 e.1)
        (initGraph c.noteCache) := rfl

theorem buildLinkGraphs_noteCache (c : ObsidianClient) :
    (buildLinkGraphs c).noteCache =
      c.noteCache.map (backfillNote ((resolvedEdges c.noteCache).foldl
        (fun g e => graphAdd g e.2 e.1) (initGraph c.noteCache))) := rfl

/-- After a rebuild, membership in a forward set is exactly membership in
the resolved edge list, for a source note present in the cache. -/
theorem buildLinkGraphs_fwd_iff (c : ObsidianClient) (a b : String)
    (ha : cacheHas c.noteCache a = true) :
    b ∈ getForwardLinks (buildLinkGraphs c) a ↔
      (a, b) ∈ resolvedEdges c.noteCache := by
  obtain ⟨na, hna⟩ := Option.isSome_iff_exists.mp ha
  obtain ⟨hmem, hpath⟩ := cacheGet_mem _ _ _ hna
  rw [mem_getForwardLinks_iff, buildLinkGraphs_linkGraph]
  rw [gmem_foldl_fwd, gmem_initGraph]
  constructor
  · rintro (h | ⟨h, -⟩)
    · exact absurd h (by simp)
    · exact h
  · intro h
    exact Or.inr ⟨h, (hasKey_initGraph c.noteCache a).mpr ⟨na, hmem, hpath⟩⟩

/-- After a rebuild, membership in a served backlinks array is exactly
membership in the resolved edge list, for a target note present in the
cache. -/
theorem buildLinkGraphs_back_iff (c : ObsidianClient) (a b : String)
    (hb : cacheHas c.noteCache b = true) :
    a ∈ getBacklinks (buildLinkGraphs c) b ↔
      (a, b) ∈ resolvedEdges c.noteCache := by
  obtain ⟨nb, hnb⟩ := Option.isSome_iff_exists.mp hb
  obtain ⟨hmem, hpath⟩ := cacheGet_mem _ _ _ hnb
  have hkeyInit : hasKey (initGraph c.noteCache) b = true :=
    (hasKey_initGraph c.noteCache b).mpr ⟨nb, hmem, hpath⟩
  have hkey : hasKey ((resolvedEdges c.noteCache).foldl
      (fun g e => graphAdd g e.2 e.1) (initGraph c.noteCache)) b = true := by
    rw [hasKey_foldl_graphAdd_snd]
    exact hkeyInit
  obtain ⟨s, hs⟩ := Option.isSome_iff_exists.mp hkey
  have hcget : cacheGet (buildLinkGraphs c).noteCache b =
      some (backfillNote ((resolvedEdges c.noteCache).foldl
        (fun g e => graphAdd g e.2 e.1) (initGraph c.noteCache)) nb) := by
    rw [buildLinkGraphs_noteCache, cacheGet_map_backfill, hnb, Option.map_some']
  rw [getBacklinks_of_cacheGet _ _ _ hcget]
  rw [backfillNote_backlinks _ _ s (by rw [hpath]; exact hs)]
  rw [← elemStr_eq_true_iff, ← gmem_of_alookup _ _ _ a hs]
  rw [gmem_foldl_back, gmem_initGraph]
  constructor
  · rintro (h | ⟨h, -⟩)
    · exact absurd h (by simp)
    · exact h
  · intro h
    exact Or.inr ⟨h, hkeyInit⟩

theorem cacheHas_buildLinkGraphs (c : ObsidianClient) (p : String) :
    cacheHas (buildLinkGraphs c).noteCache p = cacheHas c.noteCache p := by
  unfold cacheHas
  rw [buildLinkGraphs_noteCache, cacheGet_map_backfill]
  cases cacheGet c.noteCache p <;> rfl

/-- Every rebuild establishes the symmetry invariant. -/
theorem buildLinkGraphs_symmetric (c : ObsidianClient) :
    graphSymmetric (buildLinkGraphs c) := by
  intro a b ha hb
  rw [cacheHas_buildLinkGraphs] at ha hb
  rw [buildLinkGraphs_fwd_iff c a b ha, buildLinkGraphs_back_iff c a b hb]

theorem alookup_cons {α : Type} (e : String × α) (es : List (String × α))
    (k : String) :
    alookup (e :: es) k = if e.1 = k then some e.2 else alookup es k := rfl

theorem cacheGet_cons (n : VaultNote) (ns : List VaultNote) (p : String) :
    cacheGet (n :: ns) p = if n.path = p then some n else cacheGet ns p := rfl

theorem alookup_filter_ne {α : Type} (g : List (String × α)) (rel k : String)
    (h : k ≠ rel) :
    alookup (g.filter (fun e => !(e.1 == rel))) k = alookup g k := by
  induction g with
  | nil => rfl
  | cons e es ih =>
    rw [List.filter_cons]
    by_cases h2 : e.1 = rel
    · have : (!(e.1 == rel)) = false := by simp [h2]
      rw [this]
      simp only [Bool.false_eq_true, if_false]
      rw [ih]
      have : ¬ e.1 = k := fun hc => h (hc ▸ h2)
      rw [alookup_cons, if_neg this]
    · have : (!(e.1 == rel)) = true := by simp [h2]
      rw [this]
      simp only [if_true]
      rw [alookup_cons, alookup_cons]
      by_cases h3 : e.1 = k
      · rw [if_pos h3, if_pos h3]
      · rw [if_neg h3, if_neg h3, ih]

theorem alookup_filter_self {α : Type} (g : List (String × α)) (rel : String) :
    alookup (g.filter (fun e => !(e.1 == rel))) rel = none := by
  induction g with
  | nil => rfl
  | cons e es ih =>
    rw [List.filter_cons]
    by_cases h2 : e.1 = rel
    · have : (!(e.1 == rel)) = false := by simp [h2]
      rw [this]
      simp only [Bool.false_eq_true, if_false]
      exact ih
    · have : (!(e.1 == rel)) = true := by simp [h2]
      rw [this]
      simp only [if_true]
      rw [alookup_cons, if_neg h2]
      exact ih

theorem alookup_mapValues {α β : Type} (f : α → β) (g : List (String × α))
    (k : String) :
    alookup (g.map (fun e => (e.1, f e.2))) k = (alookup g k).map f := by
  induction g with
  | nil => rfl
  | cons e es ih =>
    rw [List.map_cons, alookup_cons, alookup_cons]
    by_cases h : e.1 = k
    · rw [if_pos h, if_pos h]
      rfl
    · rw [if_neg h, if_neg h]
      exact ih

theorem cacheGet_filter_ne (cache : List VaultNote) (rel p : String)
    (h : p ≠ rel) :
    cacheGet (cache.filter (fun n => !(n.path == rel))) p = cacheGet cache p := by
  induction cache with
  | nil => rfl
  | cons n ns ih =>
    rw [List.filter_cons]
    by_cases h2 : n.path = rel
    · have : (!(n.path == rel)) = false := by simp [h2]
      rw [this]
      simp only [Bool.false_eq_true, if_false]
      rw [ih]
      have : ¬ n.path = p := fun hc => h (hc ▸ h2)
      rw [cacheGet_cons, if_neg this]
    · have : (!(n.path == rel)) = true := by simp [h2]
      rw [this]
      simp only [if_true]
      rw [cacheGet_cons, cacheGet_cons]
      by_cases h3 : n.path = p
      · rw [if_pos h3, if_pos h3]
      · rw [if_neg h3, if_neg h3, ih]

theorem removeFromCache_noteCache (c : ObsidianClient) (rel : String) :
    (removeFromCache c rel).noteCache =
      c.noteCache.filter (fun n => !(n.path == rel)) := rfl

theorem removeFromCache_linkGraph (c : ObsidianClient) (rel : String) :
    (removeFromCache c rel).linkGraph =
      (c.linkGraph.filter (fun e => !(e.1 == rel))).map
        (fun e => (e.1, e.2.filter (fun x => !(x == rel)))) := rfl

theorem cacheHas_removeFromCache (c : ObsidianClient) (rel p : String)
    (h : cacheHas (removeFromCache c rel).noteCache p = true) :
    p ≠ rel ∧ cacheHas c.noteCache p = true := by
  by_cases h2 : p = rel
  · subst h2
    rw [cacheHas, removeFromCache_noteCache] at h
    have : cacheGet (c.noteCache.filter (fun n => !(n.path == p))) p = none := by
      induction c.noteCache with
      | nil => rfl
      | cons n ns ih =>
        rw [List.filter_cons]
        by_cases h3 : n.path = p
        · have he : (!(n.path == p)) = false := by simp [h3]
          rw [he]
          simp only [Bool.false_eq_true, if_false]
          exact ih
        · have he : (!(n.path == p)) = true := by simp [h3]
          rw [he]
          simp only [if_true]
          rw [cacheGet_cons, if_neg h3]
          exact ih
    rw [this] at h
    exact absurd h (by simp)
  · refine ⟨h2, ?_⟩
    rw [cacheHas, removeFromCache_noteCache, cacheGet_filter_ne _ _ _ h2] at h
    exact h

theorem getForwardLinks_removeFromCache (c : ObsidianClient) (rel a b : String)
    (ha : a ≠ rel) :
    b ∈ getForwardLinks (removeFromCache c rel) a ↔
      b ∈ getForwardLinks c a ∧ b ≠ rel := by
  unfold getForwardLinks
  rw [removeFromCache_linkGraph, alookup_mapValues, alookup_filter_ne _ _ _ ha]
  cases alookup c.linkGraph a with
  | none =>
    show b ∈ ([] : List String) ↔ b ∈ ([] : List String) ∧ b ≠ rel
    simp
  | some s =>
    show b ∈ s.filter (fun x => !(x == rel)) ↔ b ∈ s ∧ b ≠ rel
    rw [List.mem_filter]
    simp

theorem getBacklinks_removeFromCache (c : ObsidianClient) (rel b : String)
    (hb : b ≠ rel) :
    getBacklinks (removeFromCache c rel) b = getBacklinks c b := by
  unfold getBacklinks
  rw [removeFromCache_noteCache, cacheGet_filter_ne _ _ _ hb]

/-- `removeFromCache` (the whole mutation performed by a successful delete)
preserves the symmetry invariant among the remaining notes. -/
theorem removeFromCache_symmetric (c : ObsidianClient) (rel : String)
    (h : graphSymmetric c) : graphSymmetric (removeFromCache c rel) := by
  intro a b ha hb
  obtain ⟨hane, ha2⟩ := cacheHas_removeFromCache c rel a ha
  obtain ⟨hbne, hb2⟩ := cacheHas_removeFromCache c rel b hb
  rw [getBacklinks_removeFromCache c rel b hbne,
    getForwardLinks_removeFromCache c rel a b hane]
  constructor
  · rintro ⟨h1, -⟩
    exact (h a b ha2 hb2).mp h1
  · intro h1
    exact ⟨(h a b ha2 hb2).mpr h1, hbne⟩

/-- Each CRUD operation preserves the symmetry invariant: create and update
finish with a full rebuild, and delete purges through `removeFromCache`. -/
theorem applyOp_symmetric (c : ObsidianClient) (op : VaultOp)
    (h : graphSymmetric c) : graphSymmetric (applyOp c op) := by
  cases op with
  | create p content fm mtime =>
    show graphSymmetric (createNote c p content fm mtime).1
    unfold createNote
    cases validatePath c p with
    | error e => exact h
    | ok vp =>
      dsimp only
      split
      · exact buildLinkGraphs_symmetric _
      · exact buildLinkGraphs_symmetric _
  | update p content fm mtime =>
    show graphSymmetric (updateNote c p content fm mtime).1
    unfold updateNote
    cases validatePath c p with
    | error e => exact h
    | ok vp =>
      dsimp only
      split
      · exact h
      · split
        · exact buildLinkGraphs_symmetric _
        · exact buildLinkGraphs_symmetric _
  | delete p =>
    show graphSymmetric (deleteNote c p).1
    unfold deleteNote
    cases validatePath c p with
    | error e => exact h
    | ok vp =>
      dsimp only
      split
      · exact removeFromCache_symmetric _ _ h
      · exact h

theorem foldl_applyOp_symmetric (ops : List VaultOp) (c : ObsidianClient)
    (h : graphSymmetric c) : graphSymmetric (ops.foldl applyOp c) := by
  induction ops generalizing c with
  | nil => exact h
  | cons op rest ih => exact ih _ (applyOp_symmetric c op h)

theorem updateCacheEntry_linkGraph (c : ObsidianClient) (rel : String) :
    (updateCacheEntry c rel).linkGraph = c.linkGraph := by
  unfold updateCacheEntry
  cases alookup c.files (joinAbs c.vaultPath rel) <;> rfl

/-! ## Claims -/

/-- C1, counterexample: for a vault rooted at `/vault`, the requested
absolute path `/vault-evil/x.md` passes the hidden-segment check, resolves
under the sibling directory `/vault-evil`, and is *accepted* by
`validatePath` (returned as-is), not rejected with an access-denied error:
the containment check `normalizedRequested.startsWith(dir)` carries no
trailing separator, so the sibling directory satisfies it. -/
theorem sibling_prefix_accepted :
    guardDemoClient.allowedDirectories = ["/vault"] ∧
    validatePath guardDemoClient "/vault-evil/x.md" = .ok "/vault-evil/x.md" ∧
    jsStartsWith (jsToLower "/vault-evil/x.md") "/vault" = true := by
  decide

/-- C1, amended: Path Guard validation succeeds only if the lower-cased
resolved path extends a member of `allowedDirectories` as a plain string
prefix; this prefix match does *not* distinguish sibling directories, and
in particular `/vault-evil/x.md` is accepted for a vault rooted at
`/vault`. -/
theorem validate_prefix_containment :
    (∀ (c : ObsidianClient) (requested resolved : String),
      validatePath c requested = .ok resolved →
      c.allowedDirectories.any
        (fun dir => jsStartsWith (jsToLower resolved) dir) = true) ∧
    validatePath guardDemoClient "/vault-evil/x.md" = .ok "/vault-evil/x.md" := by
  constructor
  · intro c requested resolved h
    unfold validatePath at h
    split at h
    · exact absurd h (by simp)
    · simp only [] at h
      split at h
      next hcond =>
        injection h with h2
        rw [← h2]
        exact hcond
      next hcond =>
        exact absurd h (by simp)
  · decide

/-- C1 witness: a path resolving under the vault root is accepted, and the
amended containment property holds of it. -/
theorem validate_prefix_containment_witness :
    validatePath guardDemoClient "notes/sub/a.md" = .ok "/vault/notes/sub/a.md" ∧
    guardDemoClient.allowedDirectories.any
      (fun dir => jsStartsWith (jsToLower "/vault/notes/sub/a.md") dir) = true :=
  ⟨by decide, validate_prefix_containment.1 guardDemoClient "notes/sub/a.md"
    "/vault/notes/sub/a.md" (by decide)⟩

/-- C2: the symmetry invariant `B ∈ forwardLinks(A) ⟺ A ∈ backlinks(B)`
(over notes present in the vault) holds after every graph rebuild, and is
preserved by every sequence of `createNote` / `updateNote` / `deleteNote`
operations: create and update end in a rebuild, and delete purges both
graphs, so among the remaining notes the equivalence survives. -/
theorem link_graph_symmetry :
    (∀ c : ObsidianClient, graphSymmetric (buildLinkGraphs c)) ∧
    (∀ (c : ObsidianClient) (ops : List VaultOp), graphSymmetric c →
      graphSymmetric (ops.foldl applyOp c)) :=
  ⟨buildLinkGraphs_symmetric, fun c ops h => foldl_applyOp_symmetric ops c h⟩

/-- C2 witness: the invariant holds of the concrete three-note vault after
a delete followed by a create. -/
theorem link_graph_symmetry_witness :
    graphSymmetric
      ([VaultOp.delete "a.md", VaultOp.create "d.md" "[[b]]" [] 9].foldl
        applyOp purgeDemoInit) :=
  link_graph_symmetry.2 purgeDemoInit
    [VaultOp.delete "a.md", VaultOp.create "d.md" "[[b]]" [] 9]
    (link_graph_symmetry.1 (scanVault (mkObsidianClient "/vault" purgeDemoFiles)))

/-- C3 (code bug): `createNote("note", ...)` validates the path to
`/vault/note`, appends `.md` only to the dead local `notePath`, and writes
the file at `/vault/note` — no `note.md` exists on disk; `readNote("note")`
finds the entry cached under the extensionless key while
`readNote("note.md")` throws `Note not found`. -/
theorem createNote_missing_extension_bug :
    c3Created.2.isOk = true ∧
    filesHas c3Created.1.files "/vault/note" = true ∧
    filesHas c3Created.1.files "/vault/note.md" = false ∧
    cacheHas c3Created.1.noteCache "note" = true ∧
    (readNote c3Created.1 "note").2.isOk = true ∧
    (readNote c3Created.1 "note.md").2 = .error (.notFound "note.md") := by
  decide

/-- C4, counterexample: in the vault `a.md → c`, `b.md → a`, after
`deleteNote("a.md")` succeeds, the remaining note `c.md` still reports
`a.md` among its backlinks — `getBacklinks` serves the cached `backlinks`
array, which `removeFromCache` never refreshes — so the deleted note is
*not* purged from every remaining note's backlink view. -/
theorem delete_stale_backlinks_counterexample :
    "a.md" ∈ getForwardLinks purgeDemoInit "b.md" ∧
    (deleteNote purgeDemoInit "a.md").2 = .ok () ∧
    cacheHas purgeDemoDeleted.noteCache "c.md" = true ∧
    "a.md" ∈ getBacklinks purgeDemoDeleted "c.md" := by
  decide

/-- C4, amended: a successful delete removes the note from the cache and
from every forward-link set (`getForwardLinks` of no note, itself included,
ever returns it), and in the concrete scenario `analyzeLinkNetwork` reports
the broken reference `"b.md: a"`; but `getBacklinks` of a remaining note
the deleted note referenced still contains the deleted path, because the
cached backlinks arrays are not rebuilt on delete. -/
theorem delete_purge_amended :
    (∀ (c : ObsidianClient) (rel p : String),
      rel ∉ getForwardLinks (removeFromCache c rel) p ∧
      cacheHas (removeFromCache c rel).noteCache rel = false) ∧
    ((deleteNote purgeDemoInit "a.md").2 = .ok () ∧
      cacheHas purgeDemoDeleted.noteCache "a.md" = false ∧
      getForwardLinks purgeDemoDeleted "b.md" = [] ∧
      "b.md: a" ∈ (analyzeLinkNetwork purgeDemoDeleted).brokenLinks ∧
      "a.md" ∈ getBacklinks purgeDemoDeleted "c.md") := by
  constructor
  · intro c rel p
    constructor
    · by_cases hp : p = rel
      · subst hp
        unfold getForwardLinks
        rw [removeFromCache_linkGraph, alookup_mapValues, alookup_filter_self]
        simp
      · intro hmem
        exact ((getForwardLinks_removeFromCache c rel p rel hp).mp hmem).2 rfl
    · cases hhas : cacheHas (removeFromCache c rel).noteCache rel
      · rfl
      · exact absurd rfl (cacheHas_removeFromCache c rel rel hhas).1
  · decide

/-- C5 (code bug): the `Vault path is not a directory` throw sits inside
`initializeVault`'s own `try` block, so the `catch` swallows it and
rethrows the single `Cannot access vault directory` error: both failure
causes surface identically and the `NotADirectory` error never escapes
(the repo's unit test expects the distinct message and fails). -/
theorem initializeVault_error_collapse_bug :
    (∀ c : ObsidianClient,
      (initializeVault .file c).2 = .error .cannotAccessVault ∧
      (initializeVault .statError c).2 = .error .cannotAccessVault) ∧
    statCheck .file = .error .notADirectory ∧
    (∀ (st : StatResult) (c : ObsidianClient),
      (initializeVault st c).2 ≠ .error .notADirectory) := by
  refine ⟨fun c => ⟨rfl, rfl⟩, rfl, fun st c => ?_⟩
  cases st <;> simp [initializeVault, statCheck]

/-- C6, counterexample: after a `change` event for `b.md` (whose new disk
content references `a`), the cache entry holds the freshly extracted link
`"a"` — which resolves to `a.md` — yet `getForwardLinks("b.md")` is still
empty; only a later `buildLinkGraphs` would surface the edge.  The handler
rebuilds the search index but not the link graph. -/
theorem watcher_no_graph_rebuild_counterexample :
    (cacheGet watchDemoAfter.noteCache "b.md").map (fun n => n.links) =
      some ["a"] ∧
    (resolveLink watchDemoAfter.noteCache "a").map (fun n => n.path) =
      some "a.md" ∧
    getForwardLinks watchDemoAfter "b.md" = [] ∧
    getForwardLinks (buildLinkGraphs watchDemoAfter) "b.md" = ["a.md"] := by
  decide

/-- C6, amended: an add or change event upserts the note's cache entry and
rebuilds only the search index — the link graph is left untouched, so the
forward-link graph does not reflect the new references until some later
rebuild; an event for a missing file is absorbed without any state change
(failures are logged, not propagated). -/
theorem watcher_event_amended :
    (∀ (c : ObsidianClient) (p : String),
      (handleFileChange c p .add).linkGraph = c.linkGraph ∧
      (handleFileChange c p .change).linkGraph = c.linkGraph) ∧
    handleFileChange watchDemoChanged "/vault/ghost.md" .change =
      watchDemoChanged ∧
    (cacheGet watchDemoAfter.noteCache "b.md").map (fun n => n.links) =
      some ["a"] ∧
    getForwardLinks watchDemoAfter "b.md" = [] := by
  refine ⟨fun c p => ⟨?_, ?_⟩, by decide, by decide, by decide⟩
  · unfold handleFileChange
    split
    · rfl
    · exact updateCacheEntry_linkGraph _ _
  · unfold handleFileChange
    split
    · rfl
    · exact updateCacheEntry_linkGraph _ _

/-- C7: `validatePath` rejects `../../etc/passwd` and `.hidden.md` with the
hidden-segment access-denied error, and accepts `notes/sub/a.md`, returning
an absolute path strictly under the vault root. -/
theorem path_guard_examples :
    validatePath guardDemoClient "../../etc/passwd" =
      .error .accessDeniedHidden ∧
    validatePath guardDemoClient ".hidden.md" = .error .accessDeniedHidden ∧
    VaultError.accessDeniedHidden.isAccessDenied = true ∧
    validatePath guardDemoClient "notes/sub/a.md" =
      .ok "/vault/notes/sub/a.md" ∧
    isAbsolutePath "/vault/notes/sub/a.md" = true ∧
    jsStartsWith "/vault/notes/sub/a.md" "/vault/" = true := by
  decide

/-- C8: over a cache of exactly three notes with word counts 8, 8 and 6,
`getVaultStatistics` returns `totalWords = 22` and
`averageWordsPerNote = 7`, the rounded-to-nearest quotient of total words
by note count. -/
theorem statistics_example (n1 n2 n3 : VaultNote) (c : ObsidianClient)
    (h1 : n1.wordCount = 8) (h2 : n2.wordCount = 8) (h3 : n3.wordCount = 6)
    (hc : c.noteCache = [n1, n2, n3]) :
    (getVaultStatistics c).totalWords = 22 ∧
    (getVaultStatistics c).averageWordsPerNote = 7 ∧
    (getVaultStatistics c).averageWordsPerNote =
      jsRoundDiv (getVaultStatistics c).totalWords 3 := by
  have htot : (getVaultStatistics c).totalWords =
      c.noteCache.foldl (fun sum note => sum + note.wordCount) 0 := rfl
  have havg : (getVaultStatistics c).averageWordsPerNote =
      jsRoundDiv (getVaultStatistics c).totalWords c.noteCache.length := rfl
  have h22 : (getVaultStatistics c).totalWords = 22 := by
    rw [htot, hc]
    simp [List.foldl, h1, h2, h3]
  have hlen : ([n1, n2, n3] : List VaultNote).length = 3 := by simp
  refine ⟨h22, ?_, ?_⟩
  · rw [havg, h22, hc, hlen]
    decide
  · rw [havg, hc, hlen]

/-- C8 witness: the statistics of the concrete three-note client. -/
theorem statistics_example_witness :
    (getVaultStatistics statsDemoClient).totalWords = 22 ∧
    (getVaultStatistics statsDemoClient).averageWordsPerNote = 7 ∧
    (getVaultStatistics statsDemoClient).averageWordsPerNote =
      jsRoundDiv (getVaultStatistics statsDemoClient).totalWords 3 :=
  statistics_example (statsNote "n1.md" 1 8) (statsNote "n2.md" 2 8)
    (statsNote "n3.md" 3 6) statsDemoClient rfl rfl rfl rfl

/-- C9: any requested path containing a `..` segment is rejected by
`validatePath` with the hidden-segment access-denied error (thrown before
any resolution), because `..` starts with a dot — even when the path would
resolve inside the vault root. -/
theorem dotdot_always_rejected (c : ObsidianClient) (p : String)
    (h : ".." ∈ splitOnChar '/' p) :
    validatePath c p = .error .accessDeniedHidden := by
  have hany : (splitOnChar '/' p).any (fun part => jsStartsWith part ".") = true :=
    List.any_eq_true.mpr ⟨"..", h, by decide⟩
  unfold validatePath
  rw [if_pos hany]

/-- C9 witness: `a/../b.md` resolves inside the vault, yet is rejected. -/
theorem dotdot_always_rejected_witness :
    ".." ∈ splitOnChar '/' "a/../b.md" ∧
    jsStartsWith (jsToLower (resolveRequested "/vault" "a/../b.md")) "/vault" = true ∧
    validatePath guardDemoClient "a/../b.md" = .error .accessDeniedHidden :=
  ⟨by decide, by decide,
    dotdot_always_rejected guardDemoClient "a/../b.md" (by decide)⟩

/-- C10: a `limit` of `0` is falsy in `if (options?.limit)`, so the slice
is skipped and the full tag-filtered result list is returned, exactly as
with no limit; truncation happens only for a nonzero limit. -/
theorem search_limit_zero :
    (∀ (searchResults : List SearchResult) (tags : Option (List String)),
      searchNotesPost searchResults tags (some 0) =
        searchTagFilter tags searchResults ∧
      searchNotesPost searchResults tags (some 0) =
        searchNotesPost searchResults tags none) ∧
    (∀ (searchResults : List SearchResult) (tags : Option (List String))
      (n : Nat), n ≠ 0 →
      searchNotesPost searchResults tags (some n) =
        (searchTagFilter tags searchResults).take n) := by
  constructor
  · intro rs tags
    constructor
    · show (if (0 : Nat) ≠ 0 then (searchTagFilter tags rs).take 0
        else searchTagFilter tags rs) = searchTagFilter tags rs
      rw [if_neg (fun h2 => h2 rfl)]
    · rfl
  · intro rs tags n hn
    show (if n ≠ 0 then (searchTagFilter tags rs).take n
      else searchTagFilter tags rs) = (searchTagFilter tags rs).take n
    rw [if_pos hn]

/-- C10 witness: with two concrete results, a zero limit returns both and a
limit of one truncates. -/
theorem search_limit_zero_witness :
    searchNotesPost searchDemoResults none (some 0) = searchDemoResults ∧
    searchNotesPost searchDemoResults none (some 1) =
      searchDemoResults.take 1 :=
  ⟨(search_limit_zero.1 searchDemoResults none).1,
    search_limit_zero.2 searchDemoResults none 1 (by decide)⟩
